import Mathlib

/-!
Shallow embedding of `src/src/hangman.py` (class `HangmanGame`), plus the
reachable-state relation generated by its mutating operations, and theorems
checking the specification's claims against it.

Modelling conventions:
* Python `str` values are `List Char`; `str.isalpha` is modelled on the
  letters recognised by `Char.isAlpha`, which agrees with Python on every
  ASCII string the program manipulates.
* `random.choice(seq)` is modelled by an explicit choice index `k`, reduced
  modulo the length of the sequence; on an empty sequence `random.choice`
  raises `IndexError`, modelled as `PyError.emptyDictionary`.
* Wall-clock reads `time.time()` are explicit rational arguments `now`; a
  real clock value is always positive, so `start_time = 0` marks "timer
  never started", exactly as in the source.
* Python exceptions become `PyError` values in an `Except`; where an
  operation can both mutate and raise, the state component returned next to
  the error is the unchanged object, mirroring that the `raise` in the
  source happens before any mutation.
* The repository ships no `data/words.txt` / `data/phrases.txt`, so
  `_load_dictionary` always takes its `FileNotFoundError` fallback branch;
  `load_dictionary` below is that branch.
-/

namespace Hangman

/-- `GameLevel` enum of the source. -/
inductive GameLevel
  | BASIC
  | INTERMEDIATE
deriving DecidableEq

/-- The exceptions the source can raise, by kind. -/
inductive PyError
  | invalidInput     -- ValueError "Please enter a single letter"
  | duplicateGuess   -- ValueError "Letter '…' has already been guessed"
  | emptyDictionary  -- IndexError from random.choice on an empty sequence
deriving DecidableEq

/-- Python's `char.isalpha()`, restricted to the ASCII letters the program
uses. -/
def pyIsAlpha (c : Char) : Bool := c.isAlpha

/-- Python's `str.isalpha()`: non-empty and every character alphabetic. -/
def py_str_isalpha (s : List Char) : Bool := !s.isEmpty && s.all pyIsAlpha

/-- The mutable attributes of a `HangmanGame` object. -/
structure HangmanGame where
  level : GameLevel
  max_lives : Int
  current_lives : Int
  time_limit : ℚ
  guessed_letters : List Char
  game_over : Bool
  won : Bool
  target_word : List Char
  display_word : List Char
  start_time : ℚ
  dictionary : List (List Char)
deriving DecidableEq

/-- Fallback word list of `_load_dictionary` for the basic level. -/
def fallback_words : List (List Char) :=
  [String.toList "python", String.toList "programming", String.toList "computer",
   String.toList "algorithm", String.toList "software"]

/-- Fallback phrase list of `_load_dictionary` for the intermediate level. -/
def fallback_phrases : List (List Char) :=
  [String.toList "hello world", String.toList "unit testing",
   String.toList "software development"]

/-- `_load_dictionary`: the repository has no `data/` directory, so `open`
raises `FileNotFoundError` and the fallback list is returned. -/
def load_dictionary (level : GameLevel) : List (List Char) :=
  match level with
  | GameLevel.BASIC => fallback_words
  | GameLevel.INTERMEDIATE => fallback_phrases

/-- The per-character masking of `_select_target`'s loop body. -/
def mask_char (c : Char) : Char := if pyIsAlpha c then '_' else c

/-- `_select_target`: choose `dictionary[k % len]` (modelling
`random.choice`) and build the display word; `random.choice` on an empty
sequence raises `IndexError`. Returns the new `(target_word, display_word)`
pair. -/
def select_target (dict : List (List Char)) (k : Nat) :
    Except PyError (List Char × List Char) :=
  if h : dict.length = 0 then Except.error PyError.emptyDictionary
  else
    let t := dict.get ⟨k % dict.length, Nat.mod_lt _ (Nat.pos_of_ne_zero h)⟩
    Except.ok (t, t.map mask_char)

/-- `__init__`, with the dictionary passed explicitly (the tests inject it
the same way by patching `_load_dictionary`). -/
def mkGame (level : GameLevel) (dict : List (List Char)) (k : Nat) :
    Except PyError HangmanGame :=
  match select_target dict k with
  | Except.error e => Except.error e
  | Except.ok (t, d) =>
      Except.ok
        { level := level
          max_lives := 6
          current_lives := 6
          time_limit := 15
          guessed_letters := []
          game_over := false
          won := false
          target_word := t
          display_word := d
          start_time := 0
          dictionary := dict }

/-- `HangmanGame(level)` as the program runs it: dictionary from
`_load_dictionary`. -/
def newGame (level : GameLevel) (k : Nat) : Except PyError HangmanGame :=
  mkGame level (load_dictionary level) k

/-- `start_timer`: record the clock reading. -/
def start_timer (g : HangmanGame) (now : ℚ) : HangmanGame :=
  { g with start_time := now }

/-- `get_remaining_time`. -/
def get_remaining_time (g : HangmanGame) (now : ℚ) : ℚ :=
  if g.start_time = 0 then g.time_limit
  else max 0 (g.time_limit - (now - g.start_time))

/-- `is_time_up`. -/
def is_time_up (g : HangmanGame) (now : ℚ) : Bool :=
  decide (get_remaining_time g now ≤ 0)

/-- `is_won`: no `'_'` left in `display_word`. -/
def is_won (g : HangmanGame) : Bool := !g.display_word.contains '_'

/-- `is_game_over`. -/
def is_game_over (g : HangmanGame) (now : ℚ) : Bool :=
  g.game_over || is_time_up g now || decide (g.current_lives ≤ 0)

/-- `get_display_string`: `' '.join(display_word)`. -/
def get_display_string (g : HangmanGame) : List Char :=
  List.intersperse ' ' g.display_word

/-- The reveal loop of `make_guess`: write `c` at every position where the
target has `c` (the two lists have equal length in every constructed
state). -/
def reveal (t d : List Char) (c : Char) : List Char :=
  List.zipWith (fun tc dc => if tc = c then c else dc) t d

/-- The body of `make_guess` after input validation, applied to the
lowercased letter `c`: duplicate check, then either the reveal branch (a
hit) or the life-decrement branch (a miss). -/
def guess_core (g : HangmanGame) (c : Char) : Except PyError Bool × HangmanGame :=
  if c ∈ g.guessed_letters then
    (Except.error PyError.duplicateGuess, g)
  else
    if c ∈ g.target_word then
      if is_won { g with guessed_letters := c :: g.guessed_letters,
                         display_word := reveal g.target_word g.display_word c } then
        (Except.ok true,
          { g with guessed_letters := c :: g.guessed_letters,
                   display_word := reveal g.target_word g.display_word c,
                   won := true, game_over := true })
      else
        (Except.ok true,
          { g with guessed_letters := c :: g.guessed_letters,
                   display_word := reveal g.target_word g.display_word c })
    else
      if g.current_lives - 1 ≤ 0 then
        (Except.ok false,
          { g with guessed_letters := c :: g.guessed_letters,
                   current_lives := g.current_lives - 1, game_over := true })
      else
        (Except.ok false,
          { g with guessed_letters := c :: g.guessed_letters,
                   current_lives := g.current_lives - 1 })

/-- `make_guess`. Returns the hit/miss result (or the raised error) together
with the object's state afterwards; on an error the state is the unchanged
`g` because the source raises before mutating anything. -/
def make_guess (g : HangmanGame) (letter : List Char) :
    Except PyError Bool × HangmanGame :=
  if letter.length ≠ 1 ∨ py_str_isalpha letter = false then
    (Except.error PyError.invalidInput, g)
  else
    guess_core g ((letter.headD 'a').toLower)

/-- `reset_game`: restore counters and flags, then re-select a target from
the stored dictionary. -/
def reset_game (g : HangmanGame) (k : Nat) : Except PyError HangmanGame :=
  match select_target g.dictionary k with
  | Except.error e => Except.error e
  | Except.ok (t, d) =>
      Except.ok
        { g with
          current_lives := g.max_lives
          guessed_letters := []
          game_over := false
          won := false
          start_time := 0
          target_word := t
          display_word := d }

/-- ASCII apostrophe, used by the status f-strings. -/
def sq : Char := Char.ofNat 39

/-- Literal head of the victory message. -/
def congrats_head : List Char :=
  String.toList "Congratulations! You guessed the word: " ++ [sq]

/-- Literal head of the time-expired message. -/
def timesup_head : List Char :=
  String.toList "Time" ++ [sq] ++ String.toList "s up! The answer was: " ++ [sq]

/-- Literal head of the loss message. -/
def gameover_head : List Char :=
  String.toList "Game over! The answer was: " ++ [sq]

/-- Literal head of the countdown message. -/
def countdown_head : List Char := String.toList "Time remaining: "

/-- f-string of the victory branch of `get_game_status`. -/
def congrats_msg (t : List Char) : List Char := congrats_head ++ (t ++ [sq])

/-- f-string of the time-expired branch of `get_game_status`. -/
def timesup_msg (t : List Char) : List Char := timesup_head ++ (t ++ [sq])

/-- f-string of the loss branch of `get_game_status`. -/
def gameover_msg (t : List Char) : List Char := gameover_head ++ (t ++ [sq])

/-- f-string of the countdown branch of `get_game_status`. -/
def countdown_msg (n : Int) : List Char :=
  countdown_head ++ ((toString n).toList ++ String.toList " seconds")

/-- `get_game_status`. Python's `int()` truncates toward zero; the argument
`get_remaining_time` is never negative, so truncation is `Rat.floor`. -/
def get_game_status (g : HangmanGame) (now : ℚ) : List Char :=
  if g.won then congrats_msg g.target_word
  else if is_time_up g now then timesup_msg g.target_word
  else if g.current_lives ≤ 0 then gameover_msg g.target_word
  else countdown_msg (get_remaining_time g now).floor

/-! ### Reachable states and the state invariant -/

/-- States reachable through the program's mutating operations: construction
(`HangmanGame(level)`), `make_guess` with arbitrary input (failures leave the
object unchanged), `start_timer` at a (positive) clock reading, and
`reset_game`. -/
inductive Reachable : HangmanGame → Prop where
  | init : ∀ (level : GameLevel) (k : Nat) (g : HangmanGame),
      newGame level k = Except.ok g → Reachable g
  | guess : ∀ (g : HangmanGame) (letter : List Char),
      Reachable g → Reachable (make_guess g letter).2
  | timer : ∀ (g : HangmanGame) (now : ℚ),
      0 < now → Reachable g → Reachable (start_timer g now)
  | reset : ∀ (g : HangmanGame) (k : Nat) (g2 : HangmanGame),
      Reachable g → reset_game g k = Except.ok g2 → Reachable g2

/-- States reachable when the caller follows the presentation loop's guard
and never calls `make_guess` on a game whose `game_over` flag is set. -/
inductive ReachableG : HangmanGame → Prop where
  | init : ∀ (level : GameLevel) (k : Nat) (g : HangmanGame),
      newGame level k = Except.ok g → ReachableG g
  | guess : ∀ (g : HangmanGame) (letter : List Char),
      ReachableG g → g.game_over = false → ReachableG (make_guess g letter).2
  | timer : ∀ (g : HangmanGame) (now : ℚ),
      0 < now → ReachableG g → ReachableG (start_timer g now)
  | reset : ∀ (g : HangmanGame) (k : Nat) (g2 : HangmanGame),
      ReachableG g → reset_game g k = Except.ok g2 → ReachableG g2

theorem reachableG_reachable {g : HangmanGame} (h : ReachableG g) : Reachable g := by
  induction h with
  | init level k g hg => exact Reachable.init level k g hg
  | guess g letter _ _ ih => exact Reachable.guess g letter ih
  | timer g now hpos _ ih => exact Reachable.timer g now hpos ih
  | reset g k g2 _ hr ih => exact Reachable.reset g k g2 ih hr

/-- Every word of the dictionary contains an alphabetic character (true of
both fallback dictionaries). -/
def dict_ok (d : List (List Char)) : Prop :=
  ∀ w ∈ d, ∃ c ∈ w, pyIsAlpha c = true

/-- The display word determined by a target and the guessed letters:
alphabetic characters show themselves once guessed and `'_'` before,
non-alphabetic characters always show themselves. -/
def maskOf (t gl : List Char) : List Char :=
  t.map fun tc => if pyIsAlpha tc then (if tc ∈ gl then tc else '_') else tc

/-- The state invariant maintained by every operation. -/
structure Inv (g : HangmanGame) : Prop where
  maxl : g.max_lives = 6
  tlimit : g.time_limit = 15
  dict : dict_ok g.dictionary
  display : g.display_word = maskOf g.target_word g.guessed_letters
  won_iff : g.won = true ↔ '_' ∉ g.display_word
  over_of_lives : g.current_lives ≤ 0 → g.game_over = true

/-- The state `HangmanGame(GameLevel.BASIC)` constructs when the random
choice lands on index 0 of the fallback word list (`"python"`). -/
def demo_game : HangmanGame :=
  { level := GameLevel.BASIC, max_lives := 6, current_lives := 6, time_limit := 15,
    guessed_letters := [], game_over := false, won := false,
    target_word := String.toList "python",
    display_word := String.toList "______",
    start_time := 0, dictionary := fallback_words }

/-- Seven distinct letters, none occurring in `"python"`. -/
def miss_letters : List (List Char) :=
  [['a'], ['b'], ['c'], ['d'], ['e'], ['f'], ['g']]

/-- The state after guessing seven misses in a row from `demo_game`: the
sixth miss exhausts the lives and the seventh drives them to `-1`. -/
def C1_state : HangmanGame :=
  miss_letters.foldl (fun s l => (make_guess s l).2) demo_game

/-- The state constructed from the injected dictionary `["hello world"]` at
the intermediate tier. -/
def hello_game : HangmanGame :=
  { level := GameLevel.INTERMEDIATE, max_lives := 6, current_lives := 6, time_limit := 15,
    guessed_letters := [], game_over := false, won := false,
    target_word := String.toList "hello world",
    display_word := String.toList "_____ _____",
    start_time := 0, dictionary := [String.toList "hello world"] }

/-- `demo_game` with the `won` flag set and the timer started at time 1,
for exercising the status message precedence at a clock reading far past
the limit. -/
def demo_won_state : HangmanGame := { demo_game with won := true, start_time := 1 }

/-- The state `reset_game demo_game 1` produces: a fresh round on the word
`"programming"`. -/
def C9_state : HangmanGame :=
  { demo_game with
    target_word := String.toList "programming",
    display_word := String.toList "___________" }

/-- A game-over state: lives exhausted after the six misses `a`–`f`. -/
def C10_state : HangmanGame :=
  { demo_game with
    current_lives := 0, game_over := true,
    guessed_letters := String.toList "fedcba" }

theorem char_toLower_isAlpha {c : Char} (h : pyIsAlpha c = true) :
    pyIsAlpha c.toLower = true := by
  simp only [pyIsAlpha] at h ⊢
  simp only [Char.toLower]
  split
  · rename_i hcond
    simp only [ge_iff_le, Bool.and_eq_true, decide_eq_true_eq] at hcond
    generalize hn : c.toNat = n at hcond
    obtain ⟨ha, hb⟩ := hcond
    interval_cases n <;> decide
  · exact h

theorem mem_intersperse_iff {c sep : Char} (hne : c ≠ sep) (l : List Char) :
    c ∈ List.intersperse sep l ↔ c ∈ l := by
  induction l with
  | nil => simp
  | cons a t ih =>
    cases t with
    | nil => simp
    | cons b t2 =>
      rw [List.intersperse_cons_cons]
      simp only [List.mem_cons] at ih ⊢
      constructor
      · rintro (h | h | h)
        · exact Or.inl h
        · exact absurd h hne
        · exact Or.inr (ih.mp h)
      · rintro (h | h)
        · exact Or.inl h
        · exact Or.inr (Or.inr (ih.mpr h))

theorem maskOf_nil (t : List Char) : t.map mask_char = maskOf t [] := by
  simp [maskOf, mask_char]

theorem reveal_maskOf (t gl : List Char) (c : Char) :
    reveal t (maskOf t gl) c = maskOf t (c :: gl) := by
  induction t with
  | nil => rfl
  | cons tc tl ih =>
    simp only [maskOf, List.map_cons, reveal, List.zipWith_cons_cons] at ih ⊢
    refine congrArg₂ List.cons ?_ ih
    by_cases hc : tc = c
    · subst hc
      by_cases ha : pyIsAlpha tc = true <;> simp [ha]
    · simp only [if_neg hc, List.mem_cons]
      by_cases ha : pyIsAlpha tc = true
      · simp only [if_pos ha]
        by_cases hm : tc ∈ gl
        · simp [hm, hc]
        · simp [hm, hc]
      · simp [ha]

theorem maskOf_cons_of_not_mem {t : List Char} {c : Char} (h : c ∉ t)
    (gl : List Char) : maskOf t (c :: gl) = maskOf t gl := by
  induction t with
  | nil => rfl
  | cons tc tl ih =>
    have hne : tc ≠ c := fun he => h (he ▸ List.mem_cons_self tc tl)
    have ht : c ∉ tl := fun hm => h (List.mem_cons_of_mem _ hm)
    simp only [maskOf, List.map_cons] at ih ⊢
    refine congrArg₂ List.cons ?_ (ih ht)
    simp only [List.mem_cons]
    by_cases ha : pyIsAlpha tc = true
    · simp [ha, hne]
    · simp [ha]

theorem underscore_mem_maskOf_of_alpha {t : List Char} {tc : Char} {gl : List Char}
    (hmem : tc ∈ t) (ha : pyIsAlpha tc = true) (hgl : tc ∉ gl) :
    '_' ∈ maskOf t gl := by
  have : (if pyIsAlpha tc then (if tc ∈ gl then tc else '_') else tc) = '_' := by
    simp [ha, hgl]
  exact this ▸ List.mem_map_of_mem _ hmem

theorem underscore_maskOf_mono {t : List Char} {c : Char} {gl : List Char}
    (h : '_' ∈ maskOf t (c :: gl)) : '_' ∈ maskOf t gl := by
  simp only [maskOf, List.mem_map] at h ⊢
  obtain ⟨tc, htc, he⟩ := h
  refine ⟨tc, htc, ?_⟩
  by_cases ha : pyIsAlpha tc = true
  · simp only [ha, if_true] at he ⊢
    by_cases hm : tc ∈ c :: gl
    · simp only [if_pos hm] at he
      subst he
      exact absurd ha (by decide)
    · have : tc ∉ gl := fun hm2 => hm (List.mem_cons_of_mem _ hm2)
      simp [this]
  · rw [if_neg ha] at he ⊢
    exact he

theorem is_won_iff (g : HangmanGame) : is_won g = true ↔ '_' ∉ g.display_word := by
  simp [is_won]

theorem select_target_ok {dict : List (List Char)} {k : Nat}
    {t d : List Char} (h : select_target dict k = Except.ok (t, d)) :
    t ∈ dict ∧ d = t.map mask_char := by
  unfold select_target at h
  split at h
  · exact absurd h (by simp)
  · simp only [Except.ok.injEq, Prod.mk.injEq] at h
    obtain ⟨ht, hd⟩ := h
    subst ht
    exact ⟨List.get_mem dict _ _, hd.symm⟩

theorem mkGame_ok_fields {level : GameLevel} {dict : List (List Char)} {k : Nat}
    {g : HangmanGame} (h : mkGame level dict k = Except.ok g) :
    g.level = level ∧ g.max_lives = 6 ∧ g.current_lives = 6 ∧ g.time_limit = 15 ∧
    g.guessed_letters = [] ∧ g.game_over = false ∧ g.won = false ∧
    g.start_time = 0 ∧ g.dictionary = dict ∧ g.target_word ∈ dict ∧
    g.display_word = g.target_word.map mask_char := by
  unfold mkGame at h
  cases hsel : select_target dict k with
  | error e => rw [hsel] at h; exact absurd h (by simp)
  | ok td =>
    obtain ⟨t, d⟩ := td
    rw [hsel] at h
    simp only [Except.ok.injEq] at h
    subst h
    obtain ⟨hmem, hd⟩ := select_target_ok hsel
    exact ⟨rfl, rfl, rfl, rfl, rfl, rfl, rfl, rfl, rfl, hmem, hd⟩

theorem reset_game_ok_fields {g : HangmanGame} {k : Nat} {g2 : HangmanGame}
    (h : reset_game g k = Except.ok g2) :
    g2.current_lives = g.max_lives ∧ g2.guessed_letters = [] ∧
    g2.game_over = false ∧ g2.won = false ∧ g2.start_time = 0 ∧
    g2.target_word ∈ g.dictionary ∧
    g2.level = g.level ∧ g2.max_lives = g.max_lives ∧
    g2.time_limit = g.time_limit ∧ g2.dictionary = g.dictionary ∧
    g2.display_word = g2.target_word.map mask_char := by
  unfold reset_game at h
  cases hsel : select_target g.dictionary k with
  | error e => rw [hsel] at h; exact absurd h (by simp)
  | ok td =>
    obtain ⟨t, d⟩ := td
    rw [hsel] at h
    simp only [Except.ok.injEq] at h
    subst h
    obtain ⟨hmem, hd⟩ := select_target_ok hsel
    exact ⟨rfl, rfl, rfl, rfl, rfl, hmem, rfl, rfl, rfl, rfl, hd⟩

theorem inv_of_construction {g : HangmanGame}
    (hd : dict_ok g.dictionary) (hmem : g.target_word ∈ g.dictionary)
    (hmax : g.max_lives = 6) (hlives : g.current_lives = 6) (htl : g.time_limit = 15)
    (hgl : g.guessed_letters = []) (_hover : g.game_over = false) (hwon : g.won = false)
    (hdisp : g.display_word = g.target_word.map mask_char) : Inv g := by
  refine ⟨hmax, htl, hd, ?_, ?_, ?_⟩
  · rw [hdisp, hgl, maskOf_nil]
  · rw [hwon, hdisp, maskOf_nil]
    obtain ⟨tc, htc, ha⟩ := hd g.target_word hmem
    simp only [Bool.false_eq_true, false_iff, not_not]
    exact underscore_mem_maskOf_of_alpha htc ha (List.not_mem_nil tc)
  · intro hle
    rw [hlives] at hle
    omega

theorem inv_mk {level : GameLevel} {dict : List (List Char)} {k : Nat}
    {g : HangmanGame} (hd : dict_ok dict) (h : mkGame level dict k = Except.ok g) :
    Inv g := by
  obtain ⟨_, hmax, hlives, htl, hgl, hover, hwon, _, hdict, hmem, hdisp⟩ :=
    mkGame_ok_fields h
  exact inv_of_construction (hdict ▸ hd) (hdict ▸ hmem) hmax hlives htl hgl hover hwon hdisp

theorem inv_reset {g : HangmanGame} {k : Nat} {g2 : HangmanGame}
    (hg : Inv g) (h : reset_game g k = Except.ok g2) : Inv g2 := by
  obtain ⟨hlives, hgl, hover, hwon, _, hmem, _, hmax, htl, hdict, hdisp⟩ :=
    reset_game_ok_fields h
  exact inv_of_construction (hdict ▸ hg.dict) (hdict ▸ hmem)
    (hmax.trans hg.maxl) (hlives.trans hg.maxl) (htl.trans hg.tlimit)
    hgl hover hwon hdisp

theorem inv_timer {g : HangmanGame} (hg : Inv g) (now : ℚ) :
    Inv (start_timer g now) :=
  ⟨hg.maxl, hg.tlimit, hg.dict, hg.display, hg.won_iff, hg.over_of_lives⟩

theorem inv_guess_core {g : HangmanGame} (hg : Inv g) (c : Char) :
    Inv (guess_core g c).2 := by
  unfold guess_core
  split
  · exact hg
  · rename_i hnotdup
    split
    · rename_i hmemt
      have hdisp2 : reveal g.target_word g.display_word c =
          maskOf g.target_word (c :: g.guessed_letters) := by
        rw [hg.display, reveal_maskOf]
      split
      · rename_i hwon2
        refine ⟨hg.maxl, hg.tlimit, hg.dict, hdisp2, ?_, fun hle => rfl⟩
        simp only [true_iff]
        rw [is_won_iff] at hwon2
        exact hwon2
      · rename_i hwon2
        refine ⟨hg.maxl, hg.tlimit, hg.dict, hdisp2, ?_, ?_⟩
        · rw [is_won_iff] at hwon2
          simp only [not_not] at hwon2
          have hu : '_' ∈ reveal g.target_word g.display_word c := hwon2
          have hu0 : '_' ∈ g.display_word := by
            rw [hg.display]
            exact underscore_maskOf_mono (hdisp2 ▸ hu)
          constructor
          · intro hw
            exact absurd hu0 (hg.won_iff.mp hw)
          · intro hnot
            exact absurd hu hnot
        · exact fun hle => hg.over_of_lives hle
    · rename_i hnott
      have hdisp2 : g.display_word =
          maskOf g.target_word (c :: g.guessed_letters) := by
        rw [hg.display, maskOf_cons_of_not_mem hnott]
      split
      · exact ⟨hg.maxl, hg.tlimit, hg.dict, hdisp2, hg.won_iff, fun _ => rfl⟩
      · rename_i hpos
        exact ⟨hg.maxl, hg.tlimit, hg.dict, hdisp2, hg.won_iff,
          fun hle => absurd hle hpos⟩

theorem inv_guess {g : HangmanGame} (hg : Inv g) (letter : List Char) :
    Inv (make_guess g letter).2 := by
  unfold make_guess
  split
  · exact hg
  · exact inv_guess_core hg _

theorem fallback_dict_ok (level : GameLevel) : dict_ok (load_dictionary level) := by
  cases level <;> (unfold dict_ok load_dictionary; decide)

theorem reachable_inv {g : HangmanGame} (h : Reachable g) : Inv g := by
  induction h with
  | init level k g hg => exact inv_mk (fallback_dict_ok level) hg
  | guess g letter _ ih => exact inv_guess ih letter
  | timer g now _ _ ih => exact inv_timer ih now
  | reset g k g2 _ hr ih => exact inv_reset ih hr

/-- After any `make_guess` call the object is unchanged, or its lives are
unchanged, or its lives were decremented by one and `game_over` was set
whenever that left them at or below zero. -/
theorem make_guess_lives_cases (g : HangmanGame) (letter : List Char) :
    (make_guess g letter).2 = g ∨
    (make_guess g letter).2.current_lives = g.current_lives ∨
    ((make_guess g letter).2.current_lives = g.current_lives - 1 ∧
      ((make_guess g letter).2.current_lives ≤ 0 →
        (make_guess g letter).2.game_over = true)) := by
  unfold make_guess guess_core
  split
  · exact Or.inl rfl
  · split
    · exact Or.inl rfl
    · split
      · split
        · exact Or.inr (Or.inl rfl)
        · exact Or.inr (Or.inl rfl)
      · split
        · exact Or.inr (Or.inr ⟨rfl, fun _ => rfl⟩)
        · rename_i hpos
          exact Or.inr (Or.inr ⟨rfl, fun hle => absurd hle hpos⟩)

theorem make_guess_game_over_mono {g : HangmanGame} (h : g.game_over = true)
    (letter : List Char) : (make_guess g letter).2.game_over = true := by
  unfold make_guess guess_core
  split
  · exact h
  · split
    · exact h
    · split
      · split
        · rfl
        · exact h
      · split
        · rfl
        · exact h

/-- Lives bounds along guarded runs: never negative, and at least one while
the game is not flagged over. -/
theorem reachableG_lives {g : HangmanGame} (h : ReachableG g) :
    0 ≤ g.current_lives ∧ (g.game_over = false → 1 ≤ g.current_lives) := by
  induction h with
  | init level k g hg =>
    obtain ⟨_, _, hlives, _⟩ := mkGame_ok_fields hg
    rw [hlives]
    exact ⟨by norm_num, fun _ => by norm_num⟩
  | guess g letter hgR hflag ih =>
    have hone : 1 ≤ g.current_lives := ih.2 hflag
    rcases make_guess_lives_cases g letter with he | he | ⟨he, hset⟩
    · rw [he]
      exact ih
    · rw [he]
      exact ⟨ih.1, fun _ => hone⟩
    · constructor
      · omega
      · intro hnot
        by_contra hlt
        have : (make_guess g letter).2.current_lives ≤ 0 := by omega
        rw [hset this] at hnot
        exact absurd hnot (by simp)
  | timer g now _ _ ih => exact ih
  | reset g k g2 hgR hr ih =>
    obtain ⟨hlives, _⟩ := reset_game_ok_fields hr
    have hmax : g.max_lives = 6 :=
      (reachable_inv (reachableG_reachable hgR)).maxl
    rw [hlives, hmax]
    exact ⟨by norm_num, fun _ => by norm_num⟩

theorem reachable_guess_foldl {g : HangmanGame} (h : Reachable g)
    (ls : List (List Char)) :
    Reachable (ls.foldl (fun s l => (make_guess s l).2) g) := by
  induction ls generalizing g with
  | nil => exact h
  | cons l tl ih => exact ih (Reachable.guess g l h)

theorem make_guess_single (g : HangmanGame) (c0 : Char)
    (ha : pyIsAlpha c0 = true) :
    make_guess g [c0] = guess_core g c0.toLower := by
  unfold make_guess
  rw [if_neg]
  · rfl
  · simp [py_str_isalpha, ha]

/-- claim C1 --- counterexample. The claim says `currentLives` is never
negative in any reachable state; but `make_guess` has no game-over guard, so
after the six misses `a`–`f` on target `"python"` a seventh miss `g` is
accepted and drives `current_lives` from `0` to `-1` in a reachable state. -/
theorem C1_counterexample :
    Reachable C1_state ∧ C1_state.current_lives = -1 :=
  ⟨reachable_guess_foldl (Reachable.init GameLevel.BASIC 0 demo_game rfl)
      miss_letters,
    by decide⟩

/-- claim C1 (amended): provided `make_guess` is only invoked while the
`game_over` flag is unset (as the presentation loop guarantees),
`current_lives` is never negative; and in every reachable state, once
`current_lives` reaches 0 the `game_over` flag is true, and it remains true
across every subsequent `make_guess` and `start_timer` until `reset_game`
is called. -/
theorem C1_amended_theorem :
    (∀ g : HangmanGame, ReachableG g → 0 ≤ g.current_lives) ∧
    (∀ g : HangmanGame, Reachable g → g.current_lives ≤ 0 → g.game_over = true) ∧
    (∀ (g : HangmanGame) (letter : List Char), g.game_over = true →
        (make_guess g letter).2.game_over = true) ∧
    (∀ (g : HangmanGame) (now : ℚ), g.game_over = true →
        (start_timer g now).game_over = true) :=
  ⟨fun g h => (reachableG_lives h).1,
   fun g h hle => (reachable_inv h).over_of_lives hle,
   fun g letter h => make_guess_game_over_mono h letter,
   fun g now h => h⟩

/-- claim C1 --- witness for the amended theorem at concrete inputs. -/
theorem C1_witness :
    0 ≤ demo_game.current_lives ∧
    C1_state.game_over = true ∧
    (make_guess C1_state ['h']).2.game_over = true ∧
    (start_timer C1_state 1).game_over = true := by
  refine ⟨C1_amended_theorem.1 demo_game
      (ReachableG.init GameLevel.BASIC 0 demo_game rfl), ?_, ?_, ?_⟩
  · exact C1_amended_theorem.2.1 C1_state
      (reachable_guess_foldl (Reachable.init GameLevel.BASIC 0 demo_game rfl)
        miss_letters)
      (by decide)
  · exact C1_amended_theorem.2.2.1 C1_state ['h'] (by decide)
  · exact C1_amended_theorem.2.2.2 C1_state 1 (by decide)

/-- claim C2: constructing a game from a dictionary source that yields no
candidates fails with the detectable empty-dictionary error (the
`IndexError` that `random.choice` raises on an empty sequence), and with
that error exactly when the dictionary is empty --- a rejected operation
returning no state, not a crash. -/
theorem C2_empty_dictionary (level : GameLevel) (dict : List (List Char))
    (k : Nat) :
    mkGame level dict k = Except.error PyError.emptyDictionary ↔ dict = [] := by
  cases dict with
  | nil => simp [mkGame, select_target]
  | cons w ws => simp [mkGame, select_target]

/-- claim C5: in every reachable state the stored `won` flag is true iff no
masked position remains in the display word, and `is_won` is true iff the
rendered display string contains no `'_'` placeholder. -/
theorem C5_won_iff_no_mask (g : HangmanGame) (hr : Reachable g) :
    (g.won = true ↔ '_' ∉ g.display_word) ∧
    (is_won g = true ↔ '_' ∉ get_display_string g) := by
  refine ⟨(reachable_inv hr).won_iff, ?_⟩
  rw [is_won_iff]
  unfold get_display_string
  rw [mem_intersperse_iff (by decide)]

/-- claim C5 --- witness at the freshly constructed state. -/
theorem C5_witness :
    (demo_game.won = true ↔ '_' ∉ demo_game.display_word) ∧
    (is_won demo_game = true ↔ '_' ∉ get_display_string demo_game) :=
  C5_won_iff_no_mask demo_game (Reachable.init GameLevel.BASIC 0 demo_game rfl)

/-- claim C6: `get_remaining_time` is never negative; with the timer never
started (`start_time = 0`) it returns the full limit, which is 15 in every
reachable state; otherwise it returns the limit minus the elapsed time,
floored at 0; and for two clock readings `t1 ≤ t2` it is monotonically
non-increasing. It is a pure function of the state and the clock reading
and performs no mutation (its type returns no state). -/
theorem C6_remaining_time (g : HangmanGame) (t t1 t2 : ℚ) (hr : Reachable g) :
    0 ≤ get_remaining_time g t ∧
    (g.start_time = 0 →
      get_remaining_time g t = g.time_limit ∧ g.time_limit = 15) ∧
    (g.start_time ≠ 0 →
      get_remaining_time g t = max 0 (g.time_limit - (t - g.start_time))) ∧
    (t1 ≤ t2 → get_remaining_time g t2 ≤ get_remaining_time g t1) := by
  have htl : g.time_limit = 15 := (reachable_inv hr).tlimit
  refine ⟨?_, ?_, ?_, ?_⟩
  · unfold get_remaining_time
    split
    · rw [htl]; norm_num
    · exact le_max_left 0 _
  · intro hs
    unfold get_remaining_time
    rw [if_pos hs]
    exact ⟨rfl, htl⟩
  · intro hs
    unfold get_remaining_time
    rw [if_neg hs]
  · intro h12
    unfold get_remaining_time
    by_cases hs : g.start_time = 0
    · rw [if_pos hs, if_pos hs]
    · rw [if_neg hs, if_neg hs]
      exact max_le_max (le_refl 0) (by linarith)

/-- claim C6 --- witness at the freshly constructed state and the clock
readings 0 ≤ 1. -/
theorem C6_witness :
    0 ≤ get_remaining_time demo_game 2 ∧
    (demo_game.start_time = 0 →
      get_remaining_time demo_game 2 = demo_game.time_limit ∧
      demo_game.time_limit = 15) ∧
    (demo_game.start_time ≠ 0 →
      get_remaining_time demo_game 2 =
        max 0 (demo_game.time_limit - (2 - demo_game.start_time))) ∧
    ((0 : ℚ) ≤ 1 →
      get_remaining_time demo_game 1 ≤ get_remaining_time demo_game 0) :=
  C6_remaining_time demo_game 2 0 1
    (Reachable.init GameLevel.BASIC 0 demo_game rfl)

/-- claim C7: constructed from the dictionary `["hello world"]` at the
intermediate tier (whatever the random index), the game starts with an
11-slot display word whose ten alphabetic slots are masked and whose
inter-word space (slot 5) is preserved verbatim, and `get_display_string`
joins the slots with single spaces, rendering the preserved space as extra
spacing. -/
theorem C7_hello_world_display (k : Nat) :
    mkGame GameLevel.INTERMEDIATE [String.toList "hello world"] k =
        Except.ok hello_game ∧
    hello_game.display_word.length = 11 ∧
    hello_game.display_word = String.toList "_____ _____" ∧
    (hello_game.display_word.filter (fun c => c = '_')).length = 10 ∧
    get_display_string hello_game = String.toList "_ _ _ _ _   _ _ _ _ _" := by
  refine ⟨?_, by decide, by decide, by decide, by decide⟩
  unfold mkGame select_target
  simp [Nat.mod_one]
  rfl

/-- claim C9: for every state on which it succeeds, `reset_game` restores
full lives, clears the guessed letters, unsets both flags and the timer,
picks the new target from the stored dictionary, and leaves the level, the
life cap, the time limit and the dictionary itself unchanged. -/
theorem C9_reset_restores (g : HangmanGame) (k : Nat) (g2 : HangmanGame)
    (h : reset_game g k = Except.ok g2) :
    g2.current_lives = g.max_lives ∧ g2.guessed_letters = [] ∧
    g2.game_over = false ∧ g2.won = false ∧ g2.start_time = 0 ∧
    g2.target_word ∈ g.dictionary ∧
    g2.level = g.level ∧ g2.max_lives = g.max_lives ∧
    g2.time_limit = g.time_limit ∧ g2.dictionary = g.dictionary := by
  obtain ⟨h1, h2, h3, h4, h5, h6, h7, h8, h9, h10, _⟩ := reset_game_ok_fields h
  exact ⟨h1, h2, h3, h4, h5, h6, h7, h8, h9, h10⟩

/-- claim C9 --- witness: resetting `demo_game` with random index 1 yields
the round on `"programming"`. -/
theorem C9_witness :
    C9_state.current_lives = demo_game.max_lives ∧
    C9_state.guessed_letters = [] ∧
    C9_state.game_over = false ∧ C9_state.won = false ∧
    C9_state.start_time = 0 ∧
    C9_state.target_word ∈ demo_game.dictionary ∧
    C9_state.level = demo_game.level ∧
    C9_state.max_lives = demo_game.max_lives ∧
    C9_state.time_limit = demo_game.time_limit ∧
    C9_state.dictionary = demo_game.dictionary :=
  C9_reset_restores demo_game 1 C9_state rfl

/-- claim C3: `make_guess` fails exactly on invalid input: it raises the
invalid-input error precisely when the input is not one alphabetic
character, the duplicate error precisely when it is one alphabetic
character whose lowercase form was already guessed (whatever the earlier
hit/miss outcome), it never raises any other error, and every failure
leaves the state unchanged. -/
theorem C3_failure_iff (g : HangmanGame) (letter : List Char) :
    ((make_guess g letter).1 = Except.error PyError.invalidInput ↔
       ¬ (letter.length = 1 ∧ py_str_isalpha letter = true)) ∧
    ((make_guess g letter).1 = Except.error PyError.duplicateGuess ↔
       ∃ c0, letter = [c0] ∧ pyIsAlpha c0 = true ∧
         c0.toLower ∈ g.guessed_letters) ∧
    (make_guess g letter).1 ≠ Except.error PyError.emptyDictionary ∧
    (∀ e, (make_guess g letter).1 = Except.error e →
       (make_guess g letter).2 = g) := by
  by_cases hv : letter.length ≠ 1 ∨ py_str_isalpha letter = false
  · have he : make_guess g letter = (Except.error PyError.invalidInput, g) := by
      unfold make_guess
      rw [if_pos hv]
    rw [he]
    refine ⟨iff_of_true rfl ?_, iff_of_false (by simp) ?_, by simp,
      fun e _ => rfl⟩
    · rintro ⟨h1, h2⟩
      rcases hv with h | h
      · exact h h1
      · rw [h2] at h
        cases h
    · rintro ⟨c0, rfl, ha, _⟩
      rcases hv with h | h
      · exact h rfl
      · rw [show py_str_isalpha [c0] = true by simp [py_str_isalpha, ha]] at h
        cases h
  · push_neg at hv
    obtain ⟨h1, h2⟩ := hv
    have h2' : py_str_isalpha letter = true := by
      cases hb : py_str_isalpha letter
      · exact absurd hb h2
      · rfl
    obtain ⟨c0, rfl⟩ := List.length_eq_one.mp h1
    have ha : pyIsAlpha c0 = true := by
      simpa [py_str_isalpha] using h2'
    rw [make_guess_single g c0 ha]
    unfold guess_core
    by_cases hd : c0.toLower ∈ g.guessed_letters
    · rw [if_pos hd]
      refine ⟨iff_of_false (by simp) ?_, iff_of_true rfl ⟨c0, rfl, ha, hd⟩,
        by simp, fun e _ => rfl⟩
      exact not_not_intro ⟨rfl, h2'⟩
    · rw [if_neg hd]
      have hdup : ¬ ∃ c0', [c0] = [c0'] ∧ pyIsAlpha c0' = true ∧
          c0'.toLower ∈ g.guessed_letters := by
        rintro ⟨c0', heq, _, hmem⟩
        cases heq
        exact hd hmem
      split
      · split
        · exact ⟨iff_of_false (by simp) (not_not_intro ⟨rfl, h2'⟩),
            iff_of_false (by simp) hdup, by simp, fun e he => absurd he (by simp)⟩
        · exact ⟨iff_of_false (by simp) (not_not_intro ⟨rfl, h2'⟩),
            iff_of_false (by simp) hdup, by simp, fun e he => absurd he (by simp)⟩
      · split
        · exact ⟨iff_of_false (by simp) (not_not_intro ⟨rfl, h2'⟩),
            iff_of_false (by simp) hdup, by simp, fun e he => absurd he (by simp)⟩
        · exact ⟨iff_of_false (by simp) (not_not_intro ⟨rfl, h2'⟩),
            iff_of_false (by simp) hdup, by simp, fun e he => absurd he (by simp)⟩

/-- claim C3 --- witness: a two-character input is rejected with the
invalid-input error and no state change. -/
theorem C3_witness :
    ((make_guess demo_game ['1', '2']).1 = Except.error PyError.invalidInput ↔
       ¬ (['1', '2'].length = 1 ∧ py_str_isalpha ['1', '2'] = true)) ∧
    ((make_guess demo_game ['1', '2']).1 = Except.error PyError.duplicateGuess ↔
       ∃ c0, ['1', '2'] = [c0] ∧ pyIsAlpha c0 = true ∧
         c0.toLower ∈ demo_game.guessed_letters) ∧
    (make_guess demo_game ['1', '2']).1 ≠ Except.error PyError.emptyDictionary ∧
    (∀ e, (make_guess demo_game ['1', '2']).1 = Except.error e →
       (make_guess demo_game ['1', '2']).2 = demo_game) :=
  C3_failure_iff demo_game ['1', '2']

/-- claim C4: in any reachable state, a valid not-yet-guessed letter causes
exactly one of the two effects: on a hit the lives are unchanged and at
least one masked display position becomes the revealed letter, and the call
returns true; on a miss the display is unchanged and the lives decrement by
one, and the call returns false. -/
theorem C4_exactly_one (g : HangmanGame) (c0 : Char) (hr : Reachable g)
    (ha : pyIsAlpha c0 = true) (hnew : c0.toLower ∉ g.guessed_letters) :
    (c0.toLower ∈ g.target_word →
       (make_guess g [c0]).1 = Except.ok true ∧
       (make_guess g [c0]).2.current_lives = g.current_lives ∧
       ∃ i : Nat, g.display_word[i]? = some '_' ∧
         (make_guess g [c0]).2.display_word[i]? = some c0.toLower) ∧
    (c0.toLower ∉ g.target_word →
       (make_guess g [c0]).1 = Except.ok false ∧
       (make_guess g [c0]).2.current_lives = g.current_lives - 1 ∧
       (make_guess g [c0]).2.display_word = g.display_word) := by
  have hinv := reachable_inv hr
  have halow : pyIsAlpha c0.toLower = true := char_toLower_isAlpha ha
  rw [make_guess_single g c0 ha]
  unfold guess_core
  rw [if_neg hnew]
  constructor
  · intro hmem
    rw [if_pos hmem]
    obtain ⟨i, hi, hti⟩ := List.mem_iff_getElem.mp hmem
    have hdisp : g.display_word[i]? = some '_' := by
      rw [hinv.display]
      unfold maskOf
      rw [List.getElem?_map, List.getElem?_eq_getElem hi]
      simp [hti, halow, hnew]
    have hnewdisp :
        (reveal g.target_word g.display_word c0.toLower)[i]? =
          some c0.toLower := by
      rw [hinv.display, reveal_maskOf]
      unfold maskOf
      rw [List.getElem?_map, List.getElem?_eq_getElem hi]
      simp [hti, halow]
    split
    · exact ⟨rfl, rfl, i, hdisp, hnewdisp⟩
    · exact ⟨rfl, rfl, i, hdisp, hnewdisp⟩
  · intro hnmem
    rw [if_neg hnmem]
    split
    · exact ⟨rfl, rfl, rfl⟩
    · exact ⟨rfl, rfl, rfl⟩

/-- claim C4 --- witness: guessing `p` on a fresh `"python"` round is a hit
that reveals position 0 and keeps the lives. -/
theorem C4_witness :
    ('p'.toLower ∈ demo_game.target_word →
       (make_guess demo_game ['p']).1 = Except.ok true ∧
       (make_guess demo_game ['p']).2.current_lives = demo_game.current_lives ∧
       ∃ i : Nat, demo_game.display_word[i]? = some '_' ∧
         (make_guess demo_game ['p']).2.display_word[i]? = some 'p'.toLower) ∧
    ('p'.toLower ∉ demo_game.target_word →
       (make_guess demo_game ['p']).1 = Except.ok false ∧
       (make_guess demo_game ['p']).2.current_lives =
         demo_game.current_lives - 1 ∧
       (make_guess demo_game ['p']).2.display_word = demo_game.display_word) :=
  C4_exactly_one demo_game 'p'
    (Reachable.init GameLevel.BASIC 0 demo_game rfl) (by decide) (by decide)

/-- claim C10: `make_guess` has no game-over precondition: in any state
already reporting game over, a valid not-yet-guessed letter is still
accepted, still mutates the state (recording the letter, revealing on a
hit, decrementing the lives on a miss --- even from 0 to -1), and returns
the hit/miss boolean normally. -/
theorem C10_no_precondition (g : HangmanGame) (now : ℚ) (c0 : Char)
    (hover : is_game_over g now = true) (ha : pyIsAlpha c0 = true)
    (hnew : c0.toLower ∉ g.guessed_letters) :
    (make_guess g [c0]).1 = Except.ok (decide (c0.toLower ∈ g.target_word)) ∧
    (make_guess g [c0]).2.guessed_letters = c0.toLower :: g.guessed_letters ∧
    (c0.toLower ∈ g.target_word →
       (make_guess g [c0]).2.display_word =
         reveal g.target_word g.display_word c0.toLower) ∧
    (c0.toLower ∉ g.target_word →
       (make_guess g [c0]).2.current_lives = g.current_lives - 1) := by
  rw [make_guess_single g c0 ha]
  unfold guess_core
  rw [if_neg hnew]
  by_cases hmem : c0.toLower ∈ g.target_word
  · rw [if_pos hmem]
    split
    · exact ⟨by simp [hmem], rfl, fun _ => rfl, fun hn => absurd hmem hn⟩
    · exact ⟨by simp [hmem], rfl, fun _ => rfl, fun hn => absurd hmem hn⟩
  · rw [if_neg hmem]
    split
    · exact ⟨by simp [hmem], rfl, fun hm => absurd hm hmem, fun _ => rfl⟩
    · exact ⟨by simp [hmem], rfl, fun hm => absurd hm hmem, fun _ => rfl⟩

/-- claim C10 --- witness: in a lives-exhausted game-over state, guessing
the fresh miss `z` is accepted and drives the lives from 0 to -1. -/
theorem C10_witness :
    ((make_guess C10_state ['z']).1 =
        Except.ok (decide ('z'.toLower ∈ C10_state.target_word)) ∧
      (make_guess C10_state ['z']).2.guessed_letters =
        'z'.toLower :: C10_state.guessed_letters ∧
      ('z'.toLower ∈ C10_state.target_word →
        (make_guess C10_state ['z']).2.display_word =
          reveal C10_state.target_word C10_state.display_word 'z'.toLower) ∧
      ('z'.toLower ∉ C10_state.target_word →
        (make_guess C10_state ['z']).2.current_lives =
          C10_state.current_lives - 1)) ∧
    is_game_over C10_state 5 = true ∧
    (make_guess C10_state ['z']).2.current_lives = -1 :=
  ⟨C10_no_precondition C10_state 5 'z' (by decide) (by decide) (by decide),
    by decide, by decide⟩

theorem msg_ne_of_take6 {l1 l2 : List Char} (h : l1.take 6 ≠ l2.take 6) :
    l1 ≠ l2 := fun he => h (by rw [he])

theorem take6_congrats (a : List Char) :
    (congrats_msg a).take 6 = ['C', 'o', 'n', 'g', 'r', 'a'] := by
  rw [congrats_msg, List.take_append_of_le_length (by decide)]
  decide

theorem take6_timesup (a : List Char) :
    (timesup_msg a).take 6 = ['T', 'i', 'm', 'e', sq, 's'] := by
  rw [timesup_msg, List.take_append_of_le_length (by decide)]
  decide

theorem take6_gameover (a : List Char) :
    (gameover_msg a).take 6 = ['G', 'a', 'm', 'e', ' ', 'o'] := by
  rw [gameover_msg, List.take_append_of_le_length (by decide)]
  decide

theorem take6_countdown (n : Int) :
    (countdown_msg n).take 6 = ['T', 'i', 'm', 'e', ' ', 'r'] := by
  rw [countdown_msg, List.take_append_of_le_length (by decide)]
  decide

/-- claim C8: `get_game_status` returns exactly one of four pairwise
distinct reports in precedence order --- victory while `won` is set (so a
won game with expired time still reports victory, not time-up), then
time-expired, then loss on exhausted lives, each revealing the target, and
otherwise the integer-truncated remaining time. -/
theorem C8_status_precedence (g : HangmanGame) (now : ℚ) :
    (g.won = true →
       get_game_status g now = congrats_msg g.target_word ∧
       get_game_status g now ≠ timesup_msg g.target_word ∧
       ∃ u v, get_game_status g now = u ++ g.target_word ++ v) ∧
    (g.won = false → is_time_up g now = true →
       get_game_status g now = timesup_msg g.target_word ∧
       ∃ u v, get_game_status g now = u ++ g.target_word ++ v) ∧
    (g.won = false → is_time_up g now = false → g.current_lives ≤ 0 →
       get_game_status g now = gameover_msg g.target_word ∧
       ∃ u v, get_game_status g now = u ++ g.target_word ++ v) ∧
    (g.won = false → is_time_up g now = false → ¬ g.current_lives ≤ 0 →
       get_game_status g now =
         countdown_msg (get_remaining_time g now).floor) ∧
    (∀ (a b : List Char) (n : Int),
       congrats_msg a ≠ timesup_msg b ∧
       congrats_msg a ≠ gameover_msg b ∧
       congrats_msg a ≠ countdown_msg n ∧
       timesup_msg a ≠ gameover_msg b ∧
       timesup_msg a ≠ countdown_msg n ∧
       gameover_msg a ≠ countdown_msg n) := by
  refine ⟨fun hw => ?_, fun hw ht => ?_, fun hw ht hl => ?_, fun hw ht hl => ?_,
    fun a b n => ?_⟩
  · unfold get_game_status
    rw [if_pos hw]
    exact ⟨rfl,
      msg_ne_of_take6 (by rw [take6_congrats, take6_timesup]; decide),
      congrats_head, [sq], by simp [congrats_msg]⟩
  · unfold get_game_status
    rw [if_neg (by simp [hw]), if_pos ht]
    exact ⟨rfl, timesup_head, [sq], by simp [timesup_msg]⟩
  · unfold get_game_status
    rw [if_neg (by simp [hw]), if_neg (by simp [ht]), if_pos hl]
    exact ⟨rfl, gameover_head, [sq], by simp [gameover_msg]⟩
  · unfold get_game_status
    rw [if_neg (by simp [hw]), if_neg (by simp [ht]), if_neg hl]
  · exact ⟨msg_ne_of_take6 (by rw [take6_congrats, take6_timesup]; decide),
      msg_ne_of_take6 (by rw [take6_congrats, take6_gameover]; decide),
      msg_ne_of_take6 (by rw [take6_congrats, take6_countdown]; decide),
      msg_ne_of_take6 (by rw [take6_timesup, take6_gameover]; decide),
      msg_ne_of_take6 (by rw [take6_timesup, take6_countdown]; decide),
      msg_ne_of_take6 (by rw [take6_gameover, take6_countdown]; decide)⟩

/-- claim C8 --- witness: a won game whose timer expired long ago (started
at time 1, read at time 100) still reports victory, not time-up. -/
theorem C8_witness :
    is_time_up demo_won_state 100 = true ∧
    (get_game_status demo_won_state 100 = congrats_msg demo_won_state.target_word ∧
      get_game_status demo_won_state 100 ≠ timesup_msg demo_won_state.target_word ∧
      ∃ u v, get_game_status demo_won_state 100 =
        u ++ demo_won_state.target_word ++ v) :=
  ⟨by
      unfold is_time_up
      rw [show get_remaining_time demo_won_state 100 = 0 from by
        unfold get_remaining_time demo_won_state demo_game
        norm_num]
      decide,
    (C8_status_precedence demo_won_state 100).1 rfl⟩

end Hangman
